import Mathlib

/-!
Verification of the RetroChain SQL indexer (`tools/sql_indexer.py`) and its
read API (`tools/indexer_api.py`) against the repository specification.

The development shallowly embeds the relevant Python code:
- library primitives (`int()`, `base64.b64decode(validate=False)`, UTF-8
  decoding, `hashlib.sha256`, `str.upper()`/`str.lower()`) are modelled as
  executable Lean functions on `Nat`/`Int`/`String`;
- the SQLite store is a record of row lists plus the `AUTOINCREMENT`
  sequence of the `events` table and the `meta` key/value table;
- `SqlIndexer.index_height` is embedded as the list of SQL write statements
  it issues, executed by a small interpreter, wrapped in a snapshot-based
  model of `BEGIN`/`COMMIT`/`ROLLBACK`;
- the read API's parameter parsing and query functions are embedded
  directly, with `ORDER BY` modelled by sorting with the source's sort key.

Machine integers are `Int`/`Nat` with explicit `% 2 ^ 32` where the source's
arithmetic (SHA-256) wraps.
-/

/-! ### Python `int()` on strings

`int(s)` accepts optional surrounding whitespace and an optional sign
followed by decimal digits, raising `ValueError` otherwise (modelled as
`none`).  Pythons's underscore separators and non-ASCII digits are not
modelled; no claim depends on them. -/

def isPySpace (c : Char) : Bool :=
  c = ' ' || c = '\t' || c = '\n' || c = '\r' || c = Char.ofNat 11 || c = Char.ofNat 12

/-- Python `str.strip()` (ASCII whitespace; the unicode extras are not
relevant to any claim). -/
def pyStrip (s : String) : String :=
  ⟨((s.data.dropWhile isPySpace).reverse.dropWhile isPySpace).reverse⟩

def parseDigits : List Char → Option Nat
  | [] => none
  | cs => cs.foldl (fun acc c => match acc with
      | none => none
      | some n => if c.isDigit then some (n * 10 + (c.toNat - 48)) else none)
      (some 0)

def pyInt (s : String) : Option Int :=
  match (pyStrip s).data with
  | '+' :: rest => (parseDigits rest).map Int.ofNat
  | '-' :: rest => (parseDigits rest).map (fun n => -(n : Int))
  | rest => (parseDigits rest).map Int.ofNat

/-! ### Python `str.upper()` / `str.lower()` (ASCII range, as used here) -/

def pyStrUpper (s : String) : String := ⟨s.data.map Char.toUpper⟩

def pyStrLower (s : String) : String := ⟨s.data.map Char.toLower⟩

/-! ### `base64.b64decode(value, validate=False)`

With `validate=False` CPython discards characters outside the base64
alphabet, decodes the remaining data characters in groups of four, treats
`=` as terminating padding, and raises `binascii.Error` when the data
character count is incompatible with the padding.  `b64decode` of a `str`
first encodes it as ASCII, so any non-ASCII character raises.  Bytes are
modelled as `Nat` values below 256. -/

def b64CharVal (c : Char) : Option Nat :=
  if 'A' ≤ c ∧ c ≤ 'Z' then some (c.toNat - 65)
  else if 'a' ≤ c ∧ c ≤ 'z' then some (c.toNat - 71)
  else if '0' ≤ c ∧ c ≤ '9' then some (c.toNat + 4)
  else if c = '+' then some 62
  else if c = '/' then some 63
  else none

def decodeQuads : List Nat → List Nat
  | a :: b :: c :: d :: rest =>
      (a * 4 + b / 16) :: ((b % 16) * 16 + c / 4) :: ((c % 4) * 64 + d) :: decodeQuads rest
  | [a, b] => [a * 4 + b / 16]
  | [a, b, c] => [a * 4 + b / 16, (b % 16) * 16 + c / 4]
  | _ => []

def pyB64Decode (s : String) : Option (List Nat) :=
  if s.data.any (fun c => 128 ≤ c.toNat) then none
  else
    let pre := s.data.filter (fun c => (b64CharVal c).isSome || c = '=')
    let dataCs := pre.takeWhile (fun c => c ≠ '=')
    let pads := (pre.filter (fun c => c = '=')).length
    let r := dataCs.length % 4
    if r = 1 then none
    else if r = 2 ∧ pads < 2 then none
    else if r = 3 ∧ pads < 1 then none
    else some (decodeQuads (dataCs.filterMap b64CharVal))

/-! ### UTF-8 decoding (`bytes.decode("utf-8")`, strict)

Rejects stray continuation bytes, overlong encodings, surrogates and code
points above U+10FFFF, exactly as CPython's strict codec does. -/

def contVal (b : Nat) : Option Nat :=
  if 128 ≤ b ∧ b < 192 then some (b - 128) else none

def utf8Decode : List Nat → Option (List Char)
  | [] => some []
  | b :: rest =>
    if b < 128 then (utf8Decode rest).map (fun cs => Char.ofNat b :: cs)
    else if b < 224 then
      match rest with
      | c1 :: r =>
        match contVal c1 with
        | some v1 =>
          if 194 ≤ b then (utf8Decode r).map (fun cs => Char.ofNat ((b - 192) * 64 + v1) :: cs)
          else none
        | none => none
      | [] => none
    else if b < 240 then
      match rest with
      | c1 :: c2 :: r =>
        match contVal c1, contVal c2 with
        | some v1, some v2 =>
          let cp := (b - 224) * 4096 + v1 * 64 + v2
          if 2048 ≤ cp ∧ (cp < 55296 ∨ 57344 ≤ cp) then
            (utf8Decode r).map (fun cs => Char.ofNat cp :: cs)
          else none
        | _, _ => none
      | _ => none
    else if b < 248 then
      match rest with
      | c1 :: c2 :: c3 :: r =>
        match contVal c1, contVal c2, contVal c3 with
        | some v1, some v2, some v3 =>
          let cp := (b - 240) * 262144 + v1 * 4096 + v2 * 64 + v3
          if 65536 ≤ cp ∧ cp ≤ 1114111 then
            (utf8Decode r).map (fun cs => Char.ofNat cp :: cs)
          else none
        | _, _, _ => none
      | _ => none
    else none

/-! ### SHA-256 (`hashlib.sha256`), on byte lists, words as `Nat` mod `2 ^ 32` -/

def rotr32 (n x : Nat) : Nat := ((x >>> n) ||| (x <<< (32 - n))) % 2 ^ 32

def shaCh (x y z : Nat) : Nat := (x &&& y) ^^^ ((x ^^^ 4294967295) &&& z)

def shaMaj (x y z : Nat) : Nat := (x &&& y) ^^^ (x &&& z) ^^^ (y &&& z)

def shaBigSigma0 (x : Nat) : Nat := rotr32 2 x ^^^ rotr32 13 x ^^^ rotr32 22 x

def shaBigSigma1 (x : Nat) : Nat := rotr32 6 x ^^^ rotr32 11 x ^^^ rotr32 25 x

def shaSmallSigma0 (x : Nat) : Nat := rotr32 7 x ^^^ rotr32 18 x ^^^ (x >>> 3)

def shaSmallSigma1 (x : Nat) : Nat := rotr32 17 x ^^^ rotr32 19 x ^^^ (x >>> 10)

def shaK : List Nat :=
  [1116352408, 1899447441, 3049323471, 3921009573, 961987163,
   1508970993, 2453635748, 2870763221, 3624381080, 310598401,
   607225278, 1426881987, 1925078388, 2162078206, 2614888103,
   3248222580, 3835390401, 4022224774, 264347078, 604807628,
   770255983, 1249150122, 1555081692, 1996064986, 2554220882,
   2821834349, 2952996808, 3210313671, 3336571891, 3584528711,
   113926993, 338241895, 666307205, 773529912, 1294757372,
   1396182291, 1695183700, 1986661051, 2177026350, 2456956037,
   2730485921, 2820302411, 3259730800, 3345764771, 3516065817,
   3600352804, 4094571909, 275423344, 430227734, 506948616,
   659060556, 883997877, 958139571, 1322822218, 1537002063,
   1747873779, 1955562222, 2024104815, 2227730452, 2361852424,
   2428436474, 2756734187, 3204031479, 3329325298]

structure Sha8 where
  a : Nat
  b : Nat
  c : Nat
  d : Nat
  e : Nat
  f : Nat
  g : Nat
  h : Nat
  deriving DecidableEq

def sha0 : Sha8 :=
  ⟨1779033703, 3144134277, 1013904242, 2773480762, 1359893119, 2600822924, 528734635, 1541459225⟩

def shaStep (s : Sha8) (kw : Nat × Nat) : Sha8 :=
  let t1 := (s.h + shaBigSigma1 s.e + shaCh s.e s.f s.g + kw.1 + kw.2) % 2 ^ 32
  let t2 := (shaBigSigma0 s.a + shaMaj s.a s.b s.c) % 2 ^ 32
  ⟨(t1 + t2) % 2 ^ 32, s.a, s.b, s.c, (s.d + t1) % 2 ^ 32, s.e, s.f, s.g⟩

def bytesToWords : List Nat → List Nat
  | a :: b :: c :: d :: l => (a * 16777216 + b * 65536 + c * 256 + d) :: bytesToWords l
  | _ => []

def extendW (w : List Nat) : Nat → List Nat
  | 0 => w
  | n + 1 =>
      let w2 := extendW w n
      w2 ++ [(shaSmallSigma1 (w2.getD (w2.length - 2) 0) + w2.getD (w2.length - 7) 0 +
              shaSmallSigma0 (w2.getD (w2.length - 15) 0) + w2.getD (w2.length - 16) 0) % 2 ^ 32]

def shaCompress (hv : Sha8) (block : List Nat) : Sha8 :=
  let ws := extendW (bytesToWords block) 48
  let s := (ws.zip shaK).foldl shaStep hv
  ⟨(hv.a + s.a) % 2 ^ 32, (hv.b + s.b) % 2 ^ 32, (hv.c + s.c) % 2 ^ 32, (hv.d + s.d) % 2 ^ 32,
   (hv.e + s.e) % 2 ^ 32, (hv.f + s.f) % 2 ^ 32, (hv.g + s.g) % 2 ^ 32, (hv.h + s.h) % 2 ^ 32⟩

def wordToBytes (w : Nat) : List Nat :=
  [(w >>> 24) &&& 255, (w >>> 16) &&& 255, (w >>> 8) &&& 255, w &&& 255]

def sha256Pad (msg : List Nat) : List Nat :=
  let L := msg.length
  let z := (64 + 56 - ((L + 1) % 64)) % 64
  let bits := 8 * L
  msg ++ [128] ++ List.replicate z 0 ++
    [(bits >>> 56) &&& 255, (bits >>> 48) &&& 255, (bits >>> 40) &&& 255, (bits >>> 32) &&& 255,
     (bits >>> 24) &&& 255, (bits >>> 16) &&& 255, (bits >>> 8) &&& 255, bits &&& 255]

def sha256 (msg : List Nat) : List Nat :=
  let padded := sha256Pad msg
  let blocks := (List.range (padded.length / 64)).map (fun i => (padded.drop (64 * i)).take 64)
  let hv := blocks.foldl shaCompress sha0
  wordToBytes hv.a ++ wordToBytes hv.b ++ wordToBytes hv.c ++ wordToBytes hv.d ++
    wordToBytes hv.e ++ wordToBytes hv.f ++ wordToBytes hv.g ++ wordToBytes hv.h

/-! ### Hex digests (`hexdigest()` is lowercase; the indexer upper-cases it) -/

def hexDigitLower (n : Nat) : Char :=
  if n < 10 then Char.ofNat (48 + n) else if n < 16 then Char.ofNat (87 + n) else '0'

def hexDigitUpper (n : Nat) : Char :=
  if n < 10 then Char.ofNat (48 + n) else if n < 16 then Char.ofNat (55 + n) else '0'

def hexCharsLower : List Nat → List Char
  | [] => []
  | b :: l => hexDigitLower (b / 16) :: hexDigitLower (b % 16) :: hexCharsLower l

def hexCharsUpper : List Nat → List Char
  | [] => []
  | b :: l => hexDigitUpper (b / 16) :: hexDigitUpper (b % 16) :: hexCharsUpper l

def bytesToHexLower (bs : List Nat) : String := ⟨hexCharsLower bs⟩

def bytesToHexUpper (bs : List Nat) : String := ⟨hexCharsUpper bs⟩

/-! ### RPC payload views

Typed views of the dynamic JSON payloads walked by `sql_indexer.py`
(`/block` and `/block_results`).  `Option` mirrors each `dict.get` the
source performs; the source's defensive branches for non-dict/non-list
values collapse to the corresponding empty or `none` cases of these types.
`attributes[i].index` is an arbitrary JSON value merely copied through; it
is modelled as `Option Bool` (the value CometBFT actually sends).
`code`/`gas_wanted`/`gas_used` arrive as JSON numbers or numeric strings
and pass through `int(...)`; the typed view carries the parsed integer, on
which `int` is the identity. -/

structure RpcAttr where
  key : Option String
  value : Option String
  index : Option Bool
  deriving DecidableEq

structure RpcEvent where
  type : Option String
  attributes : Option (List RpcAttr)
  deriving DecidableEq

structure TxResult where
  code : Option Int
  gas_wanted : Option Int
  gas_used : Option Int
  log : Option String
  events : Option (List RpcEvent)
  deriving DecidableEq

structure BlockDoc where
  time : Option String
  proposer_address : Option String
  block_id_hash : Option String
  txs : List String
  deriving DecidableEq

structure ResultsDoc where
  begin_block_events : Option (List RpcEvent)
  end_block_events : Option (List RpcEvent)
  finalize_block_events : Option (List RpcEvent)
  txs_results : List TxResult
  deriving DecidableEq

/-! ### `_b64_to_bytes`, `_maybe_b64_to_text`, `_tx_hash_hex` -/

def bToBytes (v : String) : Option (List Nat) :=
  if v = "" then none else pyB64Decode v

def maybeB64ToText (v : String) : String :=
  match bToBytes v with
  | none => v
  | some raw =>
    match utf8Decode raw with
    | none => v
    | some text => if text.any (fun ch => ch.toNat < 9) then v else ⟨text⟩

def txHashHex (txB64 : String) : String :=
  pyStrUpper (bytesToHexLower (sha256 ((bToBytes txB64).getD [])))

/-! ### `_normalize_events` -/

structure NormAttr where
  key : String
  value : String
  key_text : String
  value_text : String
  index : Option Bool
  deriving DecidableEq

structure NormEvent where
  type : Option String
  attributes : List NormAttr
  deriving DecidableEq

def normalizeAttr (a : RpcAttr) : NormAttr :=
  let k := a.key.getD ""
  let v := a.value.getD ""
  { key := k, value := v, key_text := maybeB64ToText k, value_text := maybeB64ToText v,
    index := a.index }

def normalizeEvent (ev : RpcEvent) : NormEvent :=
  { type := ev.type, attributes := (ev.attributes.getD []).map normalizeAttr }

def normalizeEvents : Option (List RpcEvent) → List NormEvent
  | none => []
  | some evs => evs.map normalizeEvent

/-! ### Store rows and state

`blocks`, `txs`, `events` rows carry the columns of the SQLite schema.  The
JSON-serialized columns (`block_json`, `results_json`, `events_json`,
`attributes_json`) store the serialized value itself rather than its JSON
text; `json.dumps` is injective on this data, so equality of columns
coincides.  `eventsSeq` is the `AUTOINCREMENT` sequence of the `events`
table (`sqlite_sequence`): it only ever grows, and `DELETE` does not reset
it.  `meta` is the key/value table, keyed by its primary key. -/

structure BlockRow where
  height : Int
  time : Option String
  proposer : Option String
  blockIdHash : Option String
  txCount : Int
  blockJson : BlockDoc
  resultsJson : ResultsDoc
  indexedAt : String
  deriving DecidableEq

structure TxRow where
  txHash : String
  height : Int
  txIndex : Int
  code : Option Int
  gasWanted : Option Int
  gasUsed : Option Int
  txB64 : Option String
  rawLog : Option String
  eventsJson : List NormEvent
  indexedAt : String
  deriving DecidableEq

structure EventRow where
  id : Nat
  height : Int
  txHash : Option String
  source : String
  eventIndex : Nat
  eventType : Option String
  attributesJson : List NormAttr
  deriving DecidableEq

structure DB where
  blocks : List BlockRow
  txs : List TxRow
  events : List EventRow
  eventsSeq : Nat
  meta : List (String × String)
  deriving DecidableEq

def emptyDB : DB := { blocks := [], txs := [], events := [], eventsSeq := 0, meta := [] }

/-! ### The SQL statements issued by `index_height`, and their semantics

`WriteOp` is one SQL write statement.  `applyOp` gives each statement its
SQLite semantics: `INSERT OR REPLACE` deletes the row with the conflicting
primary key and appends the new row; `INSERT` into `events` allocates
`eventsSeq + 1` as the `AUTOINCREMENT` surrogate id. -/

inductive WriteOp where
  | putBlock (row : BlockRow)
  | delEvents (height : Int)
  | delTxs (height : Int)
  | putTx (row : TxRow)
  | addEvent (height : Int) (txHash : Option String) (source : String) (eventIndex : Nat)
      (eventType : Option String) (attrs : List NormAttr)
  deriving DecidableEq

def applyOp (db : DB) : WriteOp → DB
  | .putBlock r =>
      { db with blocks := db.blocks.filter (fun x => decide (x.height ≠ r.height)) ++ [r] }
  | .delEvents h => { db with events := db.events.filter (fun x => decide (x.height ≠ h)) }
  | .delTxs h => { db with txs := db.txs.filter (fun x => decide (x.height ≠ h)) }
  | .putTx r =>
      { db with txs := db.txs.filter (fun x => decide (x.txHash ≠ r.txHash)) ++ [r] }
  | .addEvent h th src idx ty attrs =>
      { db with
        events := db.events ++ [⟨db.eventsSeq + 1, h, th, src, idx, ty, attrs⟩],
        eventsSeq := db.eventsSeq + 1 }

def applyOps (db : DB) (ops : List WriteOp) : DB := ops.foldl applyOp db

/-! ### Building the statement list of `index_height(height)`

The statements appear in source order: upsert the block row, delete the
height's events and txs, insert block-scope events
(`begin_block`, `end_block`, `finalize_block` buckets in RPC order), then
per transaction the tx row followed by its tx-scope events.  `event_index`
comes from the single counter `ev_id` that starts at 0 for the height. -/

def blockRowOf (h : Int) (b : BlockDoc) (r : ResultsDoc) (now : String) : BlockRow :=
  { height := h, time := b.time, proposer := b.proposer_address, blockIdHash := b.block_id_hash,
    txCount := (b.txs.length : Int), blockJson := b, resultsJson := r, indexedAt := now }

def txRowOf (h : Int) (now : String) (i : Nat) (tx : String) (txr : TxResult) : TxRow :=
  { txHash := txHashHex tx, height := h, txIndex := (i : Int), code := txr.code,
    gasWanted := txr.gas_wanted, gasUsed := txr.gas_used, txB64 := some tx, rawLog := txr.log,
    eventsJson := normalizeEvents txr.events, indexedAt := now }

def defaultTxResult : TxResult :=
  { code := none, gas_wanted := none, gas_used := none, log := none, events := none }

def withIdx : Nat → List α → List (Nat × α)
  | _, [] => []
  | c, a :: l => (c, a) :: withIdx (c + 1) l

def txPairs (txs : List String) (res : List TxResult) : List (Nat × String × TxResult) :=
  (withIdx 0 txs).map (fun p => (p.1, p.2, res.getD p.1 defaultTxResult))

def bevTagged (r : ResultsDoc) : List (Option String × String × NormEvent) :=
  (normalizeEvents r.begin_block_events).map (fun e => (none, "begin_block", e)) ++
  (normalizeEvents r.end_block_events).map (fun e => (none, "end_block", e)) ++
  (normalizeEvents r.finalize_block_events).map (fun e => (none, "finalize_block", e))

def txEvTags (tx : String) (txr : TxResult) : List (Option String × String × NormEvent) :=
  (normalizeEvents txr.events).map (fun e => (some (txHashHex tx), "tx", e))

def txFlat : List (Nat × String × TxResult) → List (Option String × String × NormEvent)
  | [] => []
  | (_, tx, txr) :: ps => txEvTags tx txr ++ txFlat ps

def addEventOps (h : Int) : Nat → List (Option String × String × NormEvent) → List WriteOp
  | _, [] => []
  | c, p :: l => .addEvent h p.1 p.2.1 c p.2.2.type p.2.2.attributes :: addEventOps h (c + 1) l

def txOpsFrom (h : Int) (now : String) : Nat → List (Nat × String × TxResult) → List WriteOp
  | _, [] => []
  | c, (i, tx, txr) :: ps =>
      .putTx (txRowOf h now i tx txr) ::
        (addEventOps h c (txEvTags tx txr) ++
          txOpsFrom h now (c + (txEvTags tx txr).length) ps)

def indexHeightOps (h : Int) (b : BlockDoc) (r : ResultsDoc) (now : String) : List WriteOp :=
  .putBlock (blockRowOf h b r now) :: .delEvents h :: .delTxs h ::
    (addEventOps h 0 (bevTagged r) ++
      txOpsFrom h now (bevTagged r).length (txPairs b.txs r.txs_results))

/-- The committed effect of a successful `SqlIndexer.index_height(h)` call on
payloads `b`, `r`, with `indexed_at` timestamp `now`. -/
def indexHeight (db : DB) (h : Int) (b : BlockDoc) (r : ResultsDoc) (now : String) : DB :=
  applyOps db (indexHeightOps h b r now)

/-! ### Transactions and the `run_forever` per-height step

`Conn` models the SQLite connection: `BEGIN` snapshots the committed state,
`ROLLBACK` restores the snapshot, `COMMIT` discards it.  `index_height`
wraps all its writes in one `BEGIN`/`COMMIT` with `ROLLBACK` on any
exception; `failAt = some k` injects a failure after the first `k`
statements (a failure during the HTTP fetches, before `BEGIN`, behaves like
`some 0`).  `run_forever` sets `meta.last_indexed_height` only after
`index_height` returns. -/

structure Conn where
  db : DB
  snapshot : Option DB

def execBegin (c : Conn) : Conn := { c with snapshot := some c.db }

def execCommit (c : Conn) : Conn := { c with snapshot := none }

def execRollback (c : Conn) : Conn := { db := c.snapshot.getD c.db, snapshot := none }

/-- Model of `_meta_set`'s `INSERT INTO meta … ON CONFLICT(key) DO UPDATE`:
update the row with the conflicting primary key in place, else append.
`key` is the table's primary key, so at most one row can match. -/
def metaSetL : List (String × String) → String → String → List (String × String)
  | [], k, v => [(k, v)]
  | p :: m, k, v => if p.1 = k then (k, v) :: m else p :: metaSetL m k v

def metaLookup (m : List (String × String)) (k : String) : Option String :=
  (m.find? (fun p => p.1 == k)).map Prod.snd

def metaSetDB (db : DB) (k v : String) : DB := { db with meta := metaSetL db.meta k v }

def indexHeightConn (c : Conn) (h : Int) (b : BlockDoc) (r : ResultsDoc) (now : String) :
    Option Nat → Conn
  | none => execCommit { execBegin c with db := applyOps c.db (indexHeightOps h b r now) }
  | some k =>
      execRollback { execBegin c with db := applyOps c.db ((indexHeightOps h b r now).take k) }

def runStep (c : Conn) (h : Int) (b : BlockDoc) (r : ResultsDoc) (now : String) :
    Option Nat → Conn
  | none =>
      let c1 := indexHeightConn c h b r now none
      { c1 with db := metaSetDB c1.db "last_indexed_height" (toString h) }
  | some k => indexHeightConn c h b r now (some k)

/-! ### The `Init` portion of `run_forever`

After `get_status()` returns `(chain_id, latest)`, the source writes
`meta.chain_id = chain_id` whenever the live id is truthy — it performs no
comparison against a previously stored value — and then selects the next
height: `start_height` if configured, else stored
`last_indexed_height + 1`, else 1. -/

def metaGetIntL (m : List (String × String)) (k : String) : Option Int :=
  (metaLookup m k).bind pyInt

def runForeverInit (meta0 : List (String × String)) (startHeight : Option Int)
    (liveChainId : Option String) : List (String × String) × Int :=
  let m1 := match liveChainId with
    | some cid => if cid = "" then meta0 else metaSetL meta0 "chain_id" cid
    | none => meta0
  let next : Int := match startHeight with
    | some s => s
    | none =>
      match metaGetIntL m1 "last_indexed_height" with
      | some l => l + 1
      | none => 1
  (m1, next)

/-! ### Row selectors used in the statements below -/

def blocksAt (h : Int) (db : DB) : List BlockRow :=
  db.blocks.filter (fun x => decide (x.height = h))

def txsAt (h : Int) (db : DB) : List TxRow :=
  db.txs.filter (fun x => decide (x.height = h))

def eventsAt (h : Int) (db : DB) : List EventRow :=
  db.events.filter (fun x => decide (x.height = h))

/-! ### Reference shapes of the rows a successful `index_height` commits -/

def allEvents (b : BlockDoc) (r : ResultsDoc) : List (Option String × String × NormEvent) :=
  bevTagged r ++ txFlat (txPairs b.txs r.txs_results)

def rowsFrom (h : Int) : Nat → Nat → List (Option String × String × NormEvent) → List EventRow
  | _, _, [] => []
  | seq, c, p :: l =>
      ⟨seq + 1, h, p.1, p.2.1, c, p.2.2.type, p.2.2.attributes⟩ :: rowsFrom h (seq + 1) (c + 1) l

def newEvents (h : Int) (b : BlockDoc) (r : ResultsDoc) (seq : Nat) : List EventRow :=
  rowsFrom h seq 0 (allEvents b r)

def txFold (h : Int) (now : String) (acc : List TxRow) :
    List (Nat × String × TxResult) → List TxRow
  | [] => acc
  | (i, tx, txr) :: ps =>
      txFold h now
        (acc.filter (fun x => decide (x.txHash ≠ txHashHex tx)) ++ [txRowOf h now i tx txr]) ps

def newTxs (h : Int) (now : String) (pairs : List (Nat × String × TxResult)) : List TxRow :=
  txFold h now [] pairs

/-! ### Read API: `_parse_int` and the list-endpoint parameters

A query string is modelled as the association list `parse_qs` produces.
`(q.get(key) or [""])[0].strip()` is `rawParam`; `int()` failure falls back
to the default and numeric values are clamped with
`max(min_value, min(max_value, val))`. -/

def rawParam (q : List (String × List String)) (key : String) : String :=
  let vals : Option (List String) :=
    (q.find? (fun p => p.1 == key)).map Prod.snd
  pyStrip (match vals with
   | none => ""
   | some [] => ""
   | some (s :: _) => s)

def parseIntQ (q : List (String × List String)) (key : String)
    (dflt minV maxV : Int) : Int :=
  let raw := rawParam q key
  if raw = "" then dflt
  else
    match pyInt raw with
    | none => dflt
    | some v => max minV (min maxV v)

/-! ### Read API: `IndexerDB.txs` ordering

`order_sql` is `DESC` unless `order.lower() == "asc"`; the `ORDER BY` key is
`height {order_sql}, tx_index {ASC if order_sql == DESC else DESC}`.
`ORDER BY … LIMIT … OFFSET …` is modelled as sorting with the source's key
followed by `drop`/`take`; the `LEFT JOIN` onto `blocks` joins on the
unique block primary key and changes neither the row count nor the order. -/

def isDescOrder (order : String) : Bool := decide (pyStrLower order ≠ "asc")

def txLeDesc (a b : TxRow) : Prop :=
  b.height < a.height ∨ (a.height = b.height ∧ a.txIndex ≤ b.txIndex)

def txLeAsc (a b : TxRow) : Prop :=
  a.height < b.height ∨ (a.height = b.height ∧ b.txIndex ≤ a.txIndex)

instance : DecidableRel txLeDesc := fun a b => by unfold txLeDesc; exact inferInstance

instance : DecidableRel txLeAsc := fun a b => by unfold txLeAsc; exact inferInstance

instance : IsTotal TxRow txLeDesc :=
  ⟨fun a b => by unfold txLeDesc; omega⟩

instance : IsTrans TxRow txLeDesc :=
  ⟨fun a b c hab hbc => by unfold txLeDesc at *; omega⟩

instance : IsTotal TxRow txLeAsc :=
  ⟨fun a b => by unfold txLeAsc; omega⟩

instance : IsTrans TxRow txLeAsc :=
  ⟨fun a b c hab hbc => by unfold txLeAsc at *; omega⟩

def txsQuery (table : List TxRow) (limit offset : Nat) (order : String)
    (heightF : Option Int) : Nat × List TxRow :=
  let filtered := match heightF with
    | some hh => table.filter (fun t => decide (t.height = hh))
    | none => table
  let sorted :=
    if isDescOrder order then List.insertionSort txLeDesc filtered
    else List.insertionSort txLeAsc filtered
  (filtered.length, (sorted.drop offset).take limit)

/-! ### Read API: `/v1/status`

`GET /v1/status` builds a dict from the `meta` rows (later rows win, as in
the source's dict comprehension), answers `chain_id` with `meta.get`, and
computes `int(meta["last_indexed_height"]) if meta.get(...) else None`.
`none` as the overall result models the uncaught `ValueError` from `int()`
(no 200 response is produced). -/

structure StatusBody where
  dbPath : String
  chainId : Option String
  lastIndexedHeight : Option Int
  deriving DecidableEq

def metaDictGet (m : List (String × String)) (k : String) : Option String :=
  (m.reverse.find? (fun p => p.1 == k)).map Prod.snd

def statusRoute (dbPath : String) (m : List (String × String)) :
    Option (Nat × StatusBody) :=
  match metaDictGet m "last_indexed_height" with
  | none => some (200, ⟨dbPath, metaDictGet m "chain_id", none⟩)
  | some s =>
      if s = "" then some (200, ⟨dbPath, metaDictGet m "chain_id", none⟩)
      else (pyInt s).map (fun n => (200, ⟨dbPath, metaDictGet m "chain_id", some n⟩))

/-! ### Projections used by the reindex-idempotence statements

`blockRowKey`/`txRowKey` drop the `indexed_at` column; `eventRowKey`
additionally drops the `AUTOINCREMENT` surrogate id. -/

def blockRowKey (r : BlockRow) :
    Int × Option String × Option String × Option String × Int × BlockDoc × ResultsDoc :=
  (r.height, r.time, r.proposer, r.blockIdHash, r.txCount, r.blockJson, r.resultsJson)

def txRowKey (r : TxRow) :
    String × Int × Int × Option Int × Option Int × Option Int × Option String ×
      Option String × List NormEvent :=
  (r.txHash, r.height, r.txIndex, r.code, r.gasWanted, r.gasUsed, r.txB64, r.rawLog, r.eventsJson)

def eventRowKey (r : EventRow) :
    Int × Option String × String × Nat × Option String × List NormAttr :=
  (r.height, r.txHash, r.source, r.eventIndex, r.eventType, r.attributesJson)

/-! ### Spec-side text normalization (for the refinement claim C9)

`specTextOfB64` follows the specification's words: emit the UTF-8 decoding
of the base64 payload exactly when decoding succeeds, the bytes are valid
UTF-8 and the text has no character below U+0009; otherwise the original
value. -/

def specTextOfB64 (v : String) : String :=
  match pyB64Decode v with
  | none => v
  | some bs =>
    match utf8Decode bs with
    | none => v
    | some text => if text.any (fun ch => ch.toNat < 9) then v else ⟨text⟩

/-! ### Componentwise action of the statement interpreter (proof plumbing) -/

def opBlocks (bs : List BlockRow) : WriteOp → List BlockRow
  | .putBlock r => bs.filter (fun x => decide (x.height ≠ r.height)) ++ [r]
  | _ => bs

def opTxs (ts : List TxRow) : WriteOp → List TxRow
  | .delTxs h => ts.filter (fun x => decide (x.height ≠ h))
  | .putTx r => ts.filter (fun x => decide (x.txHash ≠ r.txHash)) ++ [r]
  | _ => ts

def opEvents (es : List EventRow × Nat) : WriteOp → List EventRow × Nat
  | .delEvents h => (es.1.filter (fun x => decide (x.height ≠ h)), es.2)
  | .addEvent h th src idx ty attrs => (es.1 ++ [⟨es.2 + 1, h, th, src, idx, ty, attrs⟩], es.2 + 1)
  | _ => es

/-! ### Concrete inputs used by counterexamples and witnesses -/

def emptyR : ResultsDoc := ⟨none, none, none, []⟩

def ceB1 : BlockDoc := ⟨none, none, none, []⟩

def ceR1 : ResultsDoc := ⟨some [⟨some "evt", some []⟩], none, none, []⟩

def dupB : BlockDoc := ⟨none, none, none, ["QQ==", "QQ=="]⟩

def distinctB : BlockDoc := ⟨none, none, none, ["QQ==", "Qg=="]⟩

def c8B : BlockDoc := ⟨none, none, none, ["YWJj"]⟩

def defaultTxRow : TxRow := ⟨"", 0, 0, none, none, none, none, none, [], ""⟩

def c8Row : TxRow := ((indexHeight emptyDB 1 c8B emptyR "t").txs).getD 0 defaultTxRow

def ceTx (hgt idx : Int) : TxRow := ⟨"", hgt, idx, none, none, none, none, none, [], "t"⟩

theorem sha256_sanity_abc :
    bytesToHexUpper (sha256 [97, 98, 99]) =
      "BA7816BF8F01CFEA414140DE5DAE2223B00361A396177A9CB410FF61F20015AD" := by decide

theorem sha256_sanity_empty :
    bytesToHexLower (sha256 []) =
      "e3b0c44298fc1c149afbf4c8996fb92427ae41e4649b934ca495991b7852b855" := by decide

/-! ### Projection of `applyOps` onto the three tables -/

theorem applyOps_eq (ops : List WriteOp) (db : DB) :
    applyOps db ops =
      { blocks := ops.foldl opBlocks db.blocks,
        txs := ops.foldl opTxs db.txs,
        events := (ops.foldl opEvents (db.events, db.eventsSeq)).1,
        eventsSeq := (ops.foldl opEvents (db.events, db.eventsSeq)).2,
        meta := db.meta } := by
  induction ops generalizing db with
  | nil => simp [applyOps]
  | cons o ops ih =>
    have h1 := ih (applyOp db o)
    cases o <;>
      simp only [applyOps, List.foldl_cons, applyOp, opBlocks, opTxs, opEvents] at h1 ⊢ <;>
      exact h1

theorem foldl_opBlocks_addEventOps (h : Int) (l : List (Option String × String × NormEvent)) :
    ∀ (c : Nat) (bs : List BlockRow), (addEventOps h c l).foldl opBlocks bs = bs := by
  induction l with
  | nil => intro c bs; rfl
  | cons p l ih => intro c bs; simp only [addEventOps, List.foldl_cons, opBlocks]; exact ih _ bs

theorem foldl_opBlocks_txOps (h : Int) (now : String)
    (ps : List (Nat × String × TxResult)) :
    ∀ (c : Nat) (bs : List BlockRow), (txOpsFrom h now c ps).foldl opBlocks bs = bs := by
  induction ps with
  | nil => intro c bs; rfl
  | cons q ps ih =>
    intro c bs
    obtain ⟨i, tx, txr⟩ := q
    simp only [txOpsFrom, List.foldl_cons, List.foldl_append, opBlocks,
      foldl_opBlocks_addEventOps]
    exact ih _ bs

theorem foldl_opTxs_addEventOps (h : Int) (l : List (Option String × String × NormEvent)) :
    ∀ (c : Nat) (ts : List TxRow), (addEventOps h c l).foldl opTxs ts = ts := by
  induction l with
  | nil => intro c ts; rfl
  | cons p l ih => intro c ts; simp only [addEventOps, List.foldl_cons, opTxs]; exact ih _ ts

theorem foldl_opTxs_txOps (h : Int) (now : String) (ps : List (Nat × String × TxResult)) :
    ∀ (c : Nat) (ts : List TxRow), (txOpsFrom h now c ps).foldl opTxs ts = txFold h now ts ps := by
  induction ps with
  | nil => intro c ts; rfl
  | cons q ps ih =>
    intro c ts
    obtain ⟨i, tx, txr⟩ := q
    simp only [txOpsFrom, List.foldl_cons, List.foldl_append, opTxs,
      foldl_opTxs_addEventOps, txFold, txRowOf]
    exact ih _ _

theorem foldl_opEvents_addEventOps (h : Int) (l : List (Option String × String × NormEvent)) :
    ∀ (c seq : Nat) (es : List EventRow),
      (addEventOps h c l).foldl opEvents (es, seq) = (es ++ rowsFrom h seq c l, seq + l.length) := by
  induction l with
  | nil => intro c seq es; simp [addEventOps, rowsFrom]
  | cons p l ih =>
    intro c seq es
    have e1 : seq + (l.length + 1) = (seq + 1) + l.length := by omega
    simp only [addEventOps, List.foldl_cons, opEvents, rowsFrom, List.length_cons, e1, ih]
    simp [List.append_assoc]

theorem rowsFrom_append (h : Int) (l1 l2 : List (Option String × String × NormEvent)) :
    ∀ (seq c : Nat), rowsFrom h seq c (l1 ++ l2) =
      rowsFrom h seq c l1 ++ rowsFrom h (seq + l1.length) (c + l1.length) l2 := by
  induction l1 with
  | nil => intro seq c; simp [rowsFrom]
  | cons p l1 ih =>
    intro seq c
    have e1 : seq + (l1.length + 1) = (seq + 1) + l1.length := by omega
    have e2 : c + (l1.length + 1) = (c + 1) + l1.length := by omega
    simp only [List.cons_append, rowsFrom, List.length_cons, e1, e2, List.append_eq, ih]

theorem foldl_opEvents_txOps (h : Int) (now : String) (ps : List (Nat × String × TxResult)) :
    ∀ (c seq : Nat) (es : List EventRow),
      (txOpsFrom h now c ps).foldl opEvents (es, seq) =
        (es ++ rowsFrom h seq c (txFlat ps), seq + (txFlat ps).length) := by
  induction ps with
  | nil => intro c seq es; simp [txOpsFrom, txFlat, rowsFrom]
  | cons q ps ih =>
    intro c seq es
    obtain ⟨i, tx, txr⟩ := q
    simp only [txOpsFrom, List.foldl_cons, List.foldl_append, opEvents,
      foldl_opEvents_addEventOps, txFlat]
    rw [ih (c + (txEvTags tx txr).length) (seq + (txEvTags tx txr).length)
      (es ++ rowsFrom h seq c (txEvTags tx txr))]
    rw [rowsFrom_append]
    simp [List.append_assoc, List.length_append]
    omega

/-! ### Characterization of a committed `index_height` -/

theorem indexHeight_blocks (db : DB) (h : Int) (b : BlockDoc) (r : ResultsDoc) (now : String) :
    (indexHeight db h b r now).blocks =
      db.blocks.filter (fun x => decide (x.height ≠ h)) ++ [blockRowOf h b r now] := by
  rw [indexHeight, applyOps_eq]
  simp only [indexHeightOps, List.foldl_cons, List.foldl_append, opBlocks,
    foldl_opBlocks_addEventOps, foldl_opBlocks_txOps]
  rfl

theorem indexHeight_txs (db : DB) (h : Int) (b : BlockDoc) (r : ResultsDoc) (now : String) :
    (indexHeight db h b r now).txs =
      txFold h now (db.txs.filter (fun x => decide (x.height ≠ h)))
        (txPairs b.txs r.txs_results) := by
  rw [indexHeight, applyOps_eq]
  simp only [indexHeightOps, List.foldl_cons, List.foldl_append, opTxs,
    foldl_opTxs_addEventOps, foldl_opTxs_txOps]

theorem indexHeight_events (db : DB) (h : Int) (b : BlockDoc) (r : ResultsDoc) (now : String) :
    (indexHeight db h b r now).events =
      db.events.filter (fun x => decide (x.height ≠ h)) ++ newEvents h b r db.eventsSeq := by
  rw [indexHeight, applyOps_eq]
  simp only [indexHeightOps, List.foldl_cons, List.foldl_append, opEvents,
    foldl_opEvents_addEventOps, foldl_opEvents_txOps, newEvents, allEvents, rowsFrom_append]
  simp

theorem indexHeight_eventsSeq (db : DB) (h : Int) (b : BlockDoc) (r : ResultsDoc) (now : String) :
    (indexHeight db h b r now).eventsSeq = db.eventsSeq + (allEvents b r).length := by
  rw [indexHeight, applyOps_eq]
  simp only [indexHeightOps, List.foldl_cons, List.foldl_append, opEvents,
    foldl_opEvents_addEventOps, foldl_opEvents_txOps, allEvents, List.length_append]
  omega

theorem indexHeight_meta (db : DB) (h : Int) (b : BlockDoc) (r : ResultsDoc) (now : String) :
    (indexHeight db h b r now).meta = db.meta := by
  rw [indexHeight, applyOps_eq]

/-! ### Small list facts used to read off the row sets of a height -/

theorem filter_idem (l : List α) (p : α → Bool) : (l.filter p).filter p = l.filter p := by
  apply List.filter_eq_self.mpr
  intro a ha
  exact (List.mem_filter.mp ha).2

theorem rowsFrom_height (h : Int) (l : List (Option String × String × NormEvent)) :
    ∀ (seq c : Nat), ∀ x ∈ rowsFrom h seq c l, x.height = h := by
  induction l with
  | nil => intro seq c x hx; simp [rowsFrom] at hx
  | cons p l ih =>
    intro seq c x hx
    rcases List.mem_cons.mp hx with h1 | h1
    · rw [h1]
    · exact ih (seq + 1) (c + 1) x h1

theorem rowsFrom_filter_eq (h : Int) (l : List (Option String × String × NormEvent))
    (seq c : Nat) :
    (rowsFrom h seq c l).filter (fun x => decide (x.height = h)) = rowsFrom h seq c l := by
  apply List.filter_eq_self.mpr
  intro x hx
  simp [rowsFrom_height h l seq c x hx]

theorem rowsFrom_filter_ne (h : Int) (l : List (Option String × String × NormEvent))
    (seq c : Nat) :
    (rowsFrom h seq c l).filter (fun x => decide (x.height ≠ h)) = [] := by
  apply List.filter_eq_nil.mpr
  intro x hx
  simp [rowsFrom_height h l seq c x hx]

theorem rowsFrom_map_eventIndex (h : Int) (l : List (Option String × String × NormEvent)) :
    ∀ (seq c : Nat),
      (rowsFrom h seq c l).map (fun x => x.eventIndex) = List.range' c l.length := by
  induction l with
  | nil => intro seq c; simp [rowsFrom]
  | cons p l ih =>
    intro seq c
    simp only [rowsFrom, List.map_cons, List.length_cons, List.range'_succ, ih (seq + 1) (c + 1)]

theorem rowsFrom_map_key (h : Int) (l : List (Option String × String × NormEvent)) :
    ∀ (seq1 seq2 c : Nat),
      (rowsFrom h seq1 c l).map eventRowKey = (rowsFrom h seq2 c l).map eventRowKey := by
  induction l with
  | nil => intro seq1 seq2 c; rfl
  | cons p l ih =>
    intro seq1 seq2 c
    simp only [rowsFrom, List.map_cons, eventRowKey]
    rw [ih (seq1 + 1) (seq2 + 1) (c + 1)]

/-! ### The tx-row loop: decomposition, membership, counting -/

theorem txFold_decomp (h : Int) (now : String) (ps : List (Nat × String × TxResult)) :
    ∀ acc : List TxRow,
      txFold h now acc ps =
        acc.filter (fun x => decide (x.txHash ∉ ps.map (fun p => txHashHex p.2.1))) ++
          txFold h now [] ps := by
  induction ps with
  | nil =>
    intro acc
    simp [txFold]
  | cons q ps ih =>
    intro acc
    obtain ⟨i, tx, txr⟩ := q
    simp only [txFold, List.filter_nil, List.nil_append, List.map_cons]
    rw [ih, ih [txRowOf h now i tx txr]]
    rw [List.filter_append, List.filter_filter, ← List.append_assoc]
    congr 1
    congr 1
    apply List.filter_congr
    intro x _
    rw [← Bool.decide_and, decide_eq_decide]
    simp only [List.mem_cons, not_or]
    tauto

theorem txFold_mem (h : Int) (now : String) (ps : List (Nat × String × TxResult)) :
    ∀ (acc : List TxRow), ∀ x ∈ txFold h now acc ps,
      x ∈ acc ∨ ∃ p ∈ ps, x = txRowOf h now p.1 p.2.1 p.2.2 := by
  induction ps with
  | nil => intro acc x hx; exact Or.inl hx
  | cons q ps ih =>
    intro acc x hx
    obtain ⟨i, tx, txr⟩ := q
    simp only [txFold] at hx
    rcases ih _ x hx with hmem | ⟨p, hp, hval⟩
    · rcases List.mem_append.mp hmem with hacc | hrow
      · exact Or.inl (List.mem_filter.mp hacc).1
      · refine Or.inr ⟨(i, tx, txr), List.mem_cons_self _ _, ?_⟩
        simpa using hrow
    · exact Or.inr ⟨p, List.mem_cons_of_mem _ hp, hval⟩

theorem txFold_nil_height (h : Int) (now : String) (ps : List (Nat × String × TxResult)) :
    ∀ x ∈ txFold h now [] ps, x.height = h := by
  intro x hx
  rcases txFold_mem h now ps [] x hx with hmem | ⟨p, _, hval⟩
  · simp at hmem
  · rw [hval]; rfl

theorem txFold_nil_hash (h : Int) (now : String) (ps : List (Nat × String × TxResult)) :
    ∀ x ∈ txFold h now [] ps, ∃ p ∈ ps, x = txRowOf h now p.1 p.2.1 p.2.2 := by
  intro x hx
  rcases txFold_mem h now ps [] x hx with hmem | hp
  · simp at hmem
  · exact hp

theorem txFold_nil_length (h : Int) (now : String) (ps : List (Nat × String × TxResult))
    (hnd : (ps.map (fun p => txHashHex p.2.1)).Nodup) :
    (txFold h now [] ps).length = ps.length := by
  induction ps with
  | nil => rfl
  | cons q ps ih =>
    obtain ⟨i, tx, txr⟩ := q
    simp only [List.map_cons, List.nodup_cons] at hnd
    simp only [txFold, List.filter_nil, List.nil_append]
    rw [txFold_decomp]
    have hkeep : List.filter
        (fun x => decide (x.txHash ∉ ps.map (fun p => txHashHex p.2.1)))
        [txRowOf h now i tx txr] = [txRowOf h now i tx txr] := by
      simp [txRowOf, hnd.1]
    rw [hkeep]
    simp only [List.length_append, List.length_cons, List.length_nil, ih hnd.2]
    omega

/-! ### Row sets at the indexed height -/

theorem indexHeight_blocksAt (db : DB) (h : Int) (b : BlockDoc) (r : ResultsDoc) (now : String) :
    blocksAt h (indexHeight db h b r now) = [blockRowOf h b r now] := by
  rw [blocksAt, indexHeight_blocks, List.filter_append]
  have h1 : (db.blocks.filter (fun x => decide (x.height ≠ h))).filter
      (fun x => decide (x.height = h)) = [] := by
    apply List.filter_eq_nil.mpr
    intro x hx
    have := (List.mem_filter.mp hx).2
    simp at this ⊢
    exact this
  rw [h1]
  simp [blockRowOf]

theorem indexHeight_txsAt (db : DB) (h : Int) (b : BlockDoc) (r : ResultsDoc) (now : String) :
    txsAt h (indexHeight db h b r now) = newTxs h now (txPairs b.txs r.txs_results) := by
  rw [txsAt, indexHeight_txs, txFold_decomp, List.filter_append]
  have h1 : ((db.txs.filter (fun x => decide (x.height ≠ h))).filter
      (fun x => decide (x.txHash ∉ (txPairs b.txs r.txs_results).map (fun p => txHashHex p.2.1)))).filter
        (fun x => decide (x.height = h)) = [] := by
    apply List.filter_eq_nil.mpr
    intro x hx
    have hx1 := (List.mem_filter.mp hx).1
    have := (List.mem_filter.mp hx1).2
    simp at this ⊢
    exact this
  rw [h1]
  have h2 : (txFold h now [] (txPairs b.txs r.txs_results)).filter
      (fun x => decide (x.height = h)) = txFold h now [] (txPairs b.txs r.txs_results) := by
    apply List.filter_eq_self.mpr
    intro x hx
    simp [txFold_nil_height h now _ x hx]
  rw [h2]
  rfl

theorem indexHeight_eventsAt (db : DB) (h : Int) (b : BlockDoc) (r : ResultsDoc) (now : String) :
    eventsAt h (indexHeight db h b r now) = newEvents h b r db.eventsSeq := by
  rw [eventsAt, indexHeight_events, List.filter_append]
  have h1 : (db.events.filter (fun x => decide (x.height ≠ h))).filter
      (fun x => decide (x.height = h)) = [] := by
    apply List.filter_eq_nil.mpr
    intro x hx
    have := (List.mem_filter.mp hx).2
    simp at this ⊢
    exact this
  rw [h1, newEvents, rowsFrom_filter_eq]
  rfl

/-! ### `meta` upsert facts -/

theorem metaLookup_setL_same (m : List (String × String)) (k v : String) :
    metaLookup (metaSetL m k v) k = some v := by
  induction m with
  | nil => simp [metaSetL, metaLookup, List.find?]
  | cons p m ih =>
    by_cases hk : p.1 = k
    · simp [metaSetL, hk, metaLookup, List.find?]
    · have hb : (p.1 == k) = false := by simpa using hk
      simp only [metaSetL, hk, if_false, metaLookup, List.find?, hb]
      exact ih

theorem metaLookup_setL_other (m : List (String × String)) (k v k2 : String) (hne : k2 ≠ k) :
    metaLookup (metaSetL m k v) k2 = metaLookup m k2 := by
  have hkk2 : (k == k2) = false := by simpa using fun hx => hne hx.symm
  induction m with
  | nil => simp [metaSetL, metaLookup, List.find?, hkk2]
  | cons p m ih =>
    by_cases hk : p.1 = k
    · have h2 : (p.1 == k2) = false := by
        rw [hk]
        exact hkk2
      simp only [metaSetL, hk, if_true, metaLookup, List.find?, hkk2, h2]
    · simp only [metaSetL, hk, if_false, metaLookup, List.find?]
      cases hpk : (p.1 == k2) with
      | true => rfl
      | false => exact ih

/-! ### Keys of tx rows are insensitive to the `indexed_at` timestamp -/

theorem map_key_filter_hash (hsh : String) :
    ∀ l1 l2 : List TxRow, l1.map txRowKey = l2.map txRowKey →
      (l1.filter (fun x => decide (x.txHash ≠ hsh))).map txRowKey =
        (l2.filter (fun x => decide (x.txHash ≠ hsh))).map txRowKey := by
  intro l1
  induction l1 with
  | nil =>
    intro l2 heq
    cases l2 with
    | nil => rfl
    | cons b l2t => simp at heq
  | cons a l ih =>
    intro l2 heq
    cases l2 with
    | nil => simp at heq
    | cons b l2t =>
      simp only [List.map_cons, List.cons.injEq] at heq
      obtain ⟨hk, ht⟩ := heq
      have hh : a.txHash = b.txHash := congrArg (fun t => t.1) hk
      rw [List.filter_cons, List.filter_cons, hh]
      cases hdec : decide (b.txHash ≠ hsh) with
      | false => simpa only [Bool.false_eq_true, if_false] using ih l2t ht
      | true =>
        rw [if_pos rfl, if_pos rfl, List.map_cons, List.map_cons, hk, ih l2t ht]

theorem txFold_map_key (h : Int) (now1 now2 : String) (ps : List (Nat × String × TxResult)) :
    ∀ acc1 acc2 : List TxRow, acc1.map txRowKey = acc2.map txRowKey →
      (txFold h now1 acc1 ps).map txRowKey = (txFold h now2 acc2 ps).map txRowKey := by
  induction ps with
  | nil => intro acc1 acc2 heq; exact heq
  | cons q ps ih =>
    intro acc1 acc2 heq
    obtain ⟨i, tx, txr⟩ := q
    simp only [txFold]
    apply ih
    rw [List.map_append, List.map_append, map_key_filter_hash _ _ _ heq]
    have hrow : List.map txRowKey [txRowOf h now1 i tx txr] =
        List.map txRowKey [txRowOf h now2 i tx txr] := by
      simp [txRowKey, txRowOf]
    rw [hrow]

/-! ### Reindexing a height a second time (projections modulo `indexed_at`) -/

theorem indexHeight_blocks_twice (db : DB) (h : Int) (b : BlockDoc) (r : ResultsDoc)
    (now1 now2 : String) :
    (indexHeight (indexHeight db h b r now1) h b r now2).blocks.map blockRowKey =
      (indexHeight db h b r now1).blocks.map blockRowKey := by
  rw [indexHeight_blocks (indexHeight db h b r now1) h b r now2,
    indexHeight_blocks db h b r now1, List.filter_append, filter_idem]
  have h1 : [blockRowOf h b r now1].filter (fun x => decide (x.height ≠ h)) = [] := by
    simp [blockRowOf]
  rw [h1, List.append_nil, List.map_append, List.map_append]
  have hrow : List.map blockRowKey [blockRowOf h b r now2] =
      List.map blockRowKey [blockRowOf h b r now1] := by
    simp [blockRowKey, blockRowOf]
  rw [hrow]

theorem indexHeight_txs_twice (db : DB) (h : Int) (b : BlockDoc) (r : ResultsDoc)
    (now1 now2 : String) :
    (indexHeight (indexHeight db h b r now1) h b r now2).txs.map txRowKey =
      (indexHeight db h b r now1).txs.map txRowKey := by
  rw [indexHeight_txs (indexHeight db h b r now1) h b r now2, indexHeight_txs db h b r now1]
  have h1 : (txFold h now1 (db.txs.filter (fun x => decide (x.height ≠ h)))
        (txPairs b.txs r.txs_results)).filter (fun x => decide (x.height ≠ h)) =
      (db.txs.filter (fun x => decide (x.height ≠ h))).filter
        (fun x => decide (x.txHash ∉
          (txPairs b.txs r.txs_results).map (fun p => txHashHex p.2.1))) := by
    rw [txFold_decomp, List.filter_append]
    have h2 : (txFold h now1 [] (txPairs b.txs r.txs_results)).filter
        (fun x => decide (x.height ≠ h)) = [] := by
      apply List.filter_eq_nil_iff.mpr
      intro x hx
      simp [txFold_nil_height h now1 _ x hx]
    rw [h2, List.append_nil]
    apply List.filter_eq_self.mpr
    intro x hx
    exact (List.mem_filter.mp (List.mem_filter.mp hx).1).2
  rw [h1, txFold_decomp h now2, txFold_decomp h now1, filter_idem,
    List.map_append, List.map_append]
  congr 1
  exact txFold_map_key h now2 now1 _ [] [] rfl

theorem indexHeight_events_twice (db : DB) (h : Int) (b : BlockDoc) (r : ResultsDoc)
    (now1 now2 : String) :
    (indexHeight (indexHeight db h b r now1) h b r now2).events.map eventRowKey =
      (indexHeight db h b r now1).events.map eventRowKey := by
  rw [indexHeight_events (indexHeight db h b r now1) h b r now2,
    indexHeight_events db h b r now1]
  simp only [newEvents]
  rw [List.filter_append, filter_idem, rowsFrom_filter_ne, List.append_nil,
    List.map_append, List.map_append]
  congr 1
  exact rowsFrom_map_key h (allEvents b r) _ _ 0

/-! ### `txPairs` facts -/

theorem withIdx_map_snd (l : List α) : ∀ c : Nat, (withIdx c l).map (fun p => p.2) = l := by
  induction l with
  | nil => intro c; rfl
  | cons a l ih => intro c; simp only [withIdx, List.map_cons, ih (c + 1)]

theorem withIdx_length (l : List α) : ∀ c : Nat, (withIdx c l).length = l.length := by
  induction l with
  | nil => intro c; rfl
  | cons a l ih => intro c; simp only [withIdx, List.length_cons, ih (c + 1)]

theorem txPairs_map_hash (txs : List String) (res : List TxResult) :
    (txPairs txs res).map (fun p => txHashHex p.2.1) = txs.map txHashHex := by
  rw [txPairs, List.map_map]
  have : ((fun p => txHashHex p.2.1) ∘
      fun p : Nat × String => (p.1, p.2, res.getD p.1 defaultTxResult)) =
      (fun p : Nat × String => txHashHex p.2) := rfl
  rw [this, show (fun p : Nat × String => txHashHex p.2) =
    (txHashHex ∘ fun p : Nat × String => p.2) from rfl, ← List.map_map, withIdx_map_snd]

theorem txPairs_length (txs : List String) (res : List TxResult) :
    (txPairs txs res).length = txs.length := by
  rw [txPairs, List.length_map, withIdx_length]

/-! ### `_parse_int` facts -/

theorem parseIntQ_none (q : List (String × List String)) (key : String) (dflt minV maxV : Int)
    (hp : pyInt (rawParam q key) = none) :
    parseIntQ q key dflt minV maxV = dflt := by
  rw [parseIntQ]
  by_cases hr : rawParam q key = ""
  · simp [hr]
  · simp [hr, hp]

theorem parseIntQ_some (q : List (String × List String)) (key : String) (dflt minV maxV v : Int)
    (hp : pyInt (rawParam q key) = some v) :
    parseIntQ q key dflt minV maxV = max minV (min maxV v) := by
  rw [parseIntQ]
  have hr : ¬ rawParam q key = "" := by
    intro he
    rw [he] at hp
    have h0 : pyInt "" = none := by decide
    rw [h0] at hp
    cases hp
  simp [hr, hp]

theorem parseIntQ_bounds (q : List (String × List String)) (key : String) (dflt minV maxV : Int)
    (hd1 : minV ≤ dflt) (hd2 : dflt ≤ maxV) (hmm : minV ≤ maxV) :
    minV ≤ parseIntQ q key dflt minV maxV ∧ parseIntQ q key dflt minV maxV ≤ maxV := by
  rw [parseIntQ]
  split
  · exact ⟨hd1, hd2⟩
  · cases hpi : pyInt (rawParam q key) with
    | none => exact ⟨hd1, hd2⟩
    | some v =>
      refine ⟨le_max_left _ _, max_le hmm (min_le_left _ _)⟩

/-! ### Upper-casing the hex digest -/

theorem toUpper_hexDigit (d : Nat) : Char.toUpper (hexDigitLower d) = hexDigitUpper d := by
  by_cases hd : d < 16
  · interval_cases d <;> decide
  · have h10 : ¬ d < 10 := by omega
    simp only [hexDigitLower, hexDigitUpper, h10, hd, if_false]
    decide

theorem pyStrUpper_hexLower (bs : List Nat) :
    pyStrUpper (bytesToHexLower bs) = bytesToHexUpper bs := by
  rw [pyStrUpper, bytesToHexLower, bytesToHexUpper]
  congr 1
  show (hexCharsLower bs).map Char.toUpper = hexCharsUpper bs
  induction bs with
  | nil => rfl
  | cons b bs ih =>
    simp only [hexCharsLower, hexCharsUpper, List.map_cons, toUpper_hexDigit, ih]

theorem txHashHex_of_decode (tx : String) (bs : List Nat) (hdec : pyB64Decode tx = some bs) :
    txHashHex tx = bytesToHexUpper (sha256 bs) := by
  rw [txHashHex]
  have hb : (bToBytes tx).getD [] = bs := by
    by_cases hv : tx = ""
    · subst hv
      have h0 : pyB64Decode "" = some [] := by decide
      rw [h0] at hdec
      have hbs : bs = [] := (Option.some.injEq _ _).mp hdec.symm
      simp [bToBytes, hbs]
    · simp [bToBytes, hv, hdec]
  rw [hb, pyStrUpper_hexLower]

/-! ### The source normalizer agrees with the specification's description -/

theorem maybeB64ToText_eq_spec (v : String) : maybeB64ToText v = specTextOfB64 v := by
  by_cases hv : v = ""
  · subst hv; decide
  · simp only [maybeB64ToText, specTextOfB64, bToBytes, hv, if_false]

/-! ## The claims -/

/-- Claim C1 counterexample: with `meta.chain_id = "foo"` stored and the RPC
reporting chain id `"bar"`, the `run_forever` startup overwrites the stored
`meta.chain_id` with `"bar"` and carries on — the stored value is not left
unchanged and no fatal exit happens, contrary to the claim. -/
theorem claim_C1_counterexample :
    (runForeverInit [("chain_id", "foo")] none (some "bar")).1 = [("chain_id", "bar")] ∧
    metaLookup (runForeverInit [("chain_id", "foo")] none (some "bar")).1 "chain_id" ≠
      some "foo" := by decide

/-- Claim C1 (amended): the indexer performs no chain-identity check at
startup: whenever the live chain id is a non-empty string it overwrites the
stored `meta.chain_id` with the live value (leaving every other meta key
unchanged) and proceeds to select the next height normally. -/
theorem claim_C1_chain_id (m : List (String × String)) (start : Option Int) (cid : String)
    (hcid : cid ≠ "") :
    metaLookup (runForeverInit m start (some cid)).1 "chain_id" = some cid ∧
    ∀ k, k ≠ "chain_id" → metaLookup (runForeverInit m start (some cid)).1 k = metaLookup m k := by
  have hm1 : (runForeverInit m start (some cid)).1 = metaSetL m "chain_id" cid := by
    simp [runForeverInit, hcid]
  rw [hm1]
  exact ⟨metaLookup_setL_same m "chain_id" cid,
    fun k hk => metaLookup_setL_other m "chain_id" cid k hk⟩

/-- Claim C1 witness: the amended statement at the concrete store of the
counterexample. -/
theorem claim_C1_witness :
    metaLookup (runForeverInit [("chain_id", "foo")] none (some "bar")).1 "chain_id" =
      some "bar" ∧
    metaLookup (runForeverInit [("chain_id", "foo")] none (some "bar")).1 "last_indexed_height" =
      metaLookup [("chain_id", "foo")] "last_indexed_height" :=
  ⟨(claim_C1_chain_id [("chain_id", "foo")] none "bar" (by decide)).1,
   (claim_C1_chain_id [("chain_id", "foo")] none "bar" (by decide)).2
     "last_indexed_height" (by decide)⟩

/-- Claim C2: the per-height write is atomic.  If `index_height` fails after
any prefix of its statements, the rollback leaves the store exactly as it
was before the call (all tables, the events sequence and `meta` included),
so `last_indexed_height` is not advanced; if it returns normally, the
height's block row, tx rows and event rows are all present and
`run_forever` then sets `meta.last_indexed_height` to the height. -/
theorem claim_C2_atomic (c : Conn) (h : Int) (b : BlockDoc) (r : ResultsDoc) (now : String) :
    (∀ k : Nat, (runStep c h b r now (some k)).db = c.db) ∧
    blocksAt h (runStep c h b r now none).db = [blockRowOf h b r now] ∧
    txsAt h (runStep c h b r now none).db = newTxs h now (txPairs b.txs r.txs_results) ∧
    eventsAt h (runStep c h b r now none).db = newEvents h b r c.db.eventsSeq ∧
    metaLookup (runStep c h b r now none).db.meta "last_indexed_height" = some (toString h) := by
  have hdb : (runStep c h b r now none).db =
      metaSetDB (indexHeight c.db h b r now) "last_indexed_height" (toString h) := rfl
  refine ⟨fun k => rfl, ?_, ?_, ?_, ?_⟩
  · rw [hdb]; exact indexHeight_blocksAt c.db h b r now
  · rw [hdb]; exact indexHeight_txsAt c.db h b r now
  · rw [hdb]; exact indexHeight_eventsAt c.db h b r now
  · rw [hdb]; exact metaLookup_setL_same _ _ _

/-- Claim C3 counterexample: re-running `index_height` with identical inputs
and even an identical timestamp yields a different `events` table: the
`AUTOINCREMENT` surrogate id of the single event is 1 after one run but 2
after two runs, because the delete/re-insert cycle allocates fresh ids. -/
theorem claim_C3_counterexample :
    (indexHeight emptyDB 1 ceB1 ceR1 "t").events.map (fun e => e.id) = [1] ∧
    (indexHeight (indexHeight emptyDB 1 ceB1 ceR1 "t") 1 ceB1 ceR1 "t").events.map
      (fun e => e.id) = [2] ∧
    (indexHeight (indexHeight emptyDB 1 ceB1 ceR1 "t") 1 ceB1 ceR1 "t").events ≠
      (indexHeight emptyDB 1 ceB1 ceR1 "t").events := by
  set_option maxRecDepth 100000 in decide

/-- Claim C3 (amended): running `index_height` twice with the same inputs
produces a database state identical to running it once up to the
`indexed_at` columns and the `events` surrogate ids: the blocks and txs
tables agree modulo `indexed_at`, the events rows agree in every column
except `id`, and `meta` is untouched. -/
theorem claim_C3_idempotent (db : DB) (h : Int) (b : BlockDoc) (r : ResultsDoc)
    (now1 now2 : String) :
    (indexHeight (indexHeight db h b r now1) h b r now2).blocks.map blockRowKey =
      (indexHeight db h b r now1).blocks.map blockRowKey ∧
    (indexHeight (indexHeight db h b r now1) h b r now2).txs.map txRowKey =
      (indexHeight db h b r now1).txs.map txRowKey ∧
    (indexHeight (indexHeight db h b r now1) h b r now2).events.map eventRowKey =
      (indexHeight db h b r now1).events.map eventRowKey ∧
    (indexHeight (indexHeight db h b r now1) h b r now2).meta =
      (indexHeight db h b r now1).meta :=
  ⟨indexHeight_blocks_twice db h b r now1 now2,
   indexHeight_txs_twice db h b r now1 now2,
   indexHeight_events_twice db h b r now1 now2,
   by rw [indexHeight_meta, indexHeight_meta]⟩

/-- Claim C4: after a successful `index_height(H)` the event rows at height
`H` are exactly the rows built from the begin_block, end_block and
finalize_block buckets in RPC order followed by each transaction's events
in block order (`allEvents`/`newEvents` spell out that order), and their
`event_index` values are the contiguous zero-based sequence `0..n-1` drawn
from the single per-height counter — in particular with no duplicates. -/
theorem claim_C4_event_index (db : DB) (h : Int) (b : BlockDoc) (r : ResultsDoc) (now : String) :
    eventsAt h (indexHeight db h b r now) = newEvents h b r db.eventsSeq ∧
    (eventsAt h (indexHeight db h b r now)).map (fun x => x.eventIndex) =
      List.range (allEvents b r).length := by
  refine ⟨indexHeight_eventsAt db h b r now, ?_⟩
  rw [indexHeight_eventsAt, newEvents, rowsFrom_map_eventIndex, List.range_eq_range']

/-- Claim C5 counterexample: a block whose `data.txs` holds the same
transaction string twice stores `tx_count = 2` but only one Tx row at the
height — `INSERT OR REPLACE` on the `tx_hash` primary key collapses the
duplicate — so the claimed equality fails for duplicate transactions. -/
theorem claim_C5_counterexample :
    ((indexHeight emptyDB 1 dupB emptyR "t").txs.filter
      (fun x => decide (x.height = 1))).length = 1 ∧
    (indexHeight emptyDB 1 dupB emptyR "t").blocks.map (fun x => x.txCount) = [2] ∧
    (1 : Int) ≠ 2 := by
  set_option maxRecDepth 1000000 in decide

/-- Claim C5 (amended): whenever the hashes of the block's transactions are
pairwise distinct (in particular when `data.txs` has no duplicates), the
number of Tx rows at height `H` equals the stored `tx_count`, which is the
length of `data.txs` even when `txs_results` has a different length; and
every Tx row at `H` carries `height = H`. -/
theorem claim_C5_tx_count (db : DB) (h : Int) (b : BlockDoc) (r : ResultsDoc) (now : String)
    (hnd : (b.txs.map txHashHex).Nodup) :
    (txsAt h (indexHeight db h b r now)).length = b.txs.length ∧
    blocksAt h (indexHeight db h b r now) = [blockRowOf h b r now] ∧
    (blockRowOf h b r now).txCount = (b.txs.length : Int) ∧
    (txsAt h (indexHeight db h b r now)).all (fun x => x.height == h) = true := by
  have hnd2 : ((txPairs b.txs r.txs_results).map (fun p => txHashHex p.2.1)).Nodup := by
    rw [txPairs_map_hash]; exact hnd
  refine ⟨?_, indexHeight_blocksAt db h b r now, rfl, ?_⟩
  · rw [indexHeight_txsAt, newTxs, txFold_nil_length h now _ hnd2, txPairs_length]
  · rw [indexHeight_txsAt]
    apply List.all_eq_true.mpr
    intro x hx
    simpa using txFold_nil_height h now _ x hx

/-- Claim C5 witness: the amended statement on a block with two distinct
transactions and an empty `txs_results` list. -/
theorem claim_C5_witness :
    (distinctB.txs.map txHashHex).Nodup ∧
    (txsAt 1 (indexHeight emptyDB 1 distinctB emptyR "t")).length = distinctB.txs.length :=
  ⟨by set_option maxRecDepth 1000000 in decide,
   (claim_C5_tx_count emptyDB 1 distinctB emptyR "t"
     (by set_option maxRecDepth 1000000 in decide)).1⟩

/-- Claim C6 counterexample: with `order = asc`, two transactions of the
same height come back with `tx_index` descending (`[1, 0]`), not ascending:
the query orders by `height ASC, tx_index DESC`, refuting the claim's
ascending case. -/
theorem claim_C6_counterexample :
    ¬ ((txsQuery [ceTx 1 0, ceTx 1 1] 50 0 "asc" none).2.Pairwise
        (fun a b => a.height < b.height ∨ (a.height = b.height ∧ a.txIndex ≤ b.txIndex))) := by
  set_option maxRecDepth 100000 in decide

/-- Claim C6 (amended): the tx listing is ordered by `(height, tx_index)`
with `tx_index` ascending within each height when the requested order is
descending, and `tx_index` descending within each height when the
requested order is ascending — for every table, limit, offset and height
filter. -/
theorem claim_C6_tx_order (table : List TxRow) (limit offset : Nat) (order : String)
    (hF : Option Int) :
    ((txsQuery table limit offset order hF).2).Pairwise
      (fun a b => cond (isDescOrder order) (txLeDesc a b) (txLeAsc a b)) := by
  simp only [txsQuery]
  cases hd : isDescOrder order with
  | true =>
    simp only [if_pos rfl, cond_true]
    have hs := List.sorted_insertionSort txLeDesc
      (match hF with
        | some hh => table.filter (fun t => decide (t.height = hh))
        | none => table)
    exact List.Pairwise.sublist ((List.take_sublist _ _).trans (List.drop_sublist _ _)) hs
  | false =>
    simp only [Bool.false_eq_true, if_false, cond_false]
    have hs := List.sorted_insertionSort txLeAsc
      (match hF with
        | some hh => table.filter (fun t => decide (t.height = hh))
        | none => table)
    exact List.Pairwise.sublist ((List.take_sublist _ _).trans (List.drop_sublist _ _)) hs

/-- Claim C7 counterexample: a negative `limit` on `/v1/blocks` does not
fall back to the default 20 — `_parse_int` clamps it to the lower bound 1. -/
theorem claim_C7_counterexample :
    parseIntQ [("limit", ["-5"])] "limit" 20 1 200 = 1 ∧ (1 : Int) ≠ 20 := by decide

/-- Claim C7 (amended): on every list endpoint, a missing or non-numeric
`limit`/`offset` falls back to the endpoint default silently; a numeric
value is clamped to the endpoint bounds with `max(min, min(max, v))`, so a
negative `limit` becomes the lower bound 1 (not the default) while a
negative `offset` becomes 0 (which coincides with its default); the parsed
values always lie within the endpoint bounds, and parsing never fails. -/
theorem claim_C7_params (q : List (String × List String)) (v : Int) :
    (pyInt (rawParam q "limit") = none →
      parseIntQ q "limit" 20 1 200 = 20 ∧ parseIntQ q "limit" 50 1 500 = 50) ∧
    (pyInt (rawParam q "limit") = some v →
      parseIntQ q "limit" 20 1 200 = max 1 (min 200 v) ∧
      parseIntQ q "limit" 50 1 500 = max 1 (min 500 v)) ∧
    (pyInt (rawParam q "offset") = none → parseIntQ q "offset" 0 0 10000000 = 0) ∧
    (pyInt (rawParam q "offset") = some v →
      parseIntQ q "offset" 0 0 10000000 = max 0 (min 10000000 v)) ∧
    (v < 0 → max 1 (min 200 v) = 1 ∧ max 1 (min 500 v) = 1 ∧ max 0 (min 10000000 v) = 0) ∧
    (1 ≤ parseIntQ q "limit" 20 1 200 ∧ parseIntQ q "limit" 20 1 200 ≤ 200) ∧
    (1 ≤ parseIntQ q "limit" 50 1 500 ∧ parseIntQ q "limit" 50 1 500 ≤ 500) ∧
    (0 ≤ parseIntQ q "offset" 0 0 10000000 ∧ parseIntQ q "offset" 0 0 10000000 ≤ 10000000) := by
  refine ⟨fun hp => ⟨parseIntQ_none _ _ _ _ _ hp, parseIntQ_none _ _ _ _ _ hp⟩,
    fun hp => ⟨parseIntQ_some _ _ _ _ _ _ hp, parseIntQ_some _ _ _ _ _ _ hp⟩,
    fun hp => parseIntQ_none _ _ _ _ _ hp,
    fun hp => parseIntQ_some _ _ _ _ _ _ hp,
    fun hv => ?_,
    parseIntQ_bounds _ _ _ _ _ (by omega) (by omega) (by omega),
    parseIntQ_bounds _ _ _ _ _ (by omega) (by omega) (by omega),
    parseIntQ_bounds _ _ _ _ _ (by omega) (by omega) (by omega)⟩
  refine ⟨?_, ?_, ?_⟩ <;> (simp only [max_def, min_def]; split_ifs <;> omega)

/-- Claim C7 witness: a non-numeric limit yields the default, a negative
limit yields the lower bound 1 rather than the default, and a negative
offset yields 0. -/
theorem claim_C7_witness :
    parseIntQ [("limit", ["zz"])] "limit" 20 1 200 = 20 ∧
    parseIntQ [("limit", ["-7"])] "limit" 20 1 200 = max 1 (min 200 (-7)) ∧
    max 1 (min 200 (-7 : Int)) = 1 ∧
    parseIntQ [("offset", ["-7"])] "offset" 0 0 10000000 = max 0 (min 10000000 (-7)) :=
  ⟨((claim_C7_params [("limit", ["zz"])] (-7)).1 (by decide)).1,
   ((claim_C7_params [("limit", ["-7"])] (-7)).2.1 (by decide)).1,
   ((claim_C7_params [("limit", ["-7"])] (-7)).2.2.2.2.1 (by decide)).1,
   (claim_C7_params [("offset", ["-7"])] (-7)).2.2.2.1 (by decide)⟩

/-- Claim C8: every Tx row stored at the indexed height carries
`tx_hash = uppercase(hex(SHA-256(base64_decode(tx_b64))))` whenever its raw
transaction string decodes. -/
theorem claim_C8_tx_hash (db : DB) (h : Int) (b : BlockDoc) (r : ResultsDoc)
    (now tx : String) (bs : List Nat) (row : TxRow)
    (hdec : pyB64Decode tx = some bs)
    (hrow : row ∈ (indexHeight db h b r now).txs)
    (hh : row.height = h) (htx : row.txB64 = some tx) :
    row.txHash = bytesToHexUpper (sha256 bs) := by
  rw [indexHeight_txs] at hrow
  rcases txFold_mem h now _ _ row hrow with hacc | ⟨p, _, hval⟩
  · exfalso
    have hne := (List.mem_filter.mp hacc).2
    rw [hh] at hne
    simp at hne
  · obtain ⟨i2, tx2, txr2⟩ := p
    rw [hval] at htx ⊢
    simp only [txRowOf, Option.some.injEq] at htx
    show txHashHex tx2 = bytesToHexUpper (sha256 bs)
    rw [htx]
    exact txHashHex_of_decode tx bs hdec

/-- Claim C8 witness: the single transaction `"YWJj"` (base64 of `"abc"`)
is stored with the uppercase hex SHA-256 of `"abc"`. -/
theorem claim_C8_witness : c8Row.txHash = bytesToHexUpper (sha256 [97, 98, 99]) :=
  claim_C8_tx_hash emptyDB 1 c8B emptyR "t" "YWJj" [97, 98, 99] c8Row
    (by decide)
    (by set_option maxRecDepth 1000000 in decide)
    (by set_option maxRecDepth 1000000 in decide)
    (by set_option maxRecDepth 1000000 in decide)

/-- Claim C9: every normalized attribute preserves the original key and
value verbatim, and its `key_text`/`value_text` equal the specification's
description (`specTextOfB64`): the UTF-8 decoding of the base64 payload
exactly when decoding succeeds, the bytes are valid UTF-8 and the text has
no character below U+0009, and the original value otherwise. -/
theorem claim_C9_text_normalization (a : RpcAttr) :
    (normalizeAttr a).key = a.key.getD "" ∧
    (normalizeAttr a).value = a.value.getD "" ∧
    (normalizeAttr a).key_text = specTextOfB64 (a.key.getD "") ∧
    (normalizeAttr a).value_text = specTextOfB64 (a.value.getD "") :=
  ⟨rfl, rfl, maybeB64ToText_eq_spec _, maybeB64ToText_eq_spec _⟩

/-- Claim C10 counterexample: a store whose meta lacks `chain_id` but holds
a non-numeric `last_indexed_height` makes `/v1/status` raise inside
`int()` instead of returning 200 with `chain_id = null`, refuting the
claim's universal quantification over stores. -/
theorem claim_C10_counterexample :
    statusRoute "db" [("last_indexed_height", "x")] = none ∧
    metaDictGet [("last_indexed_height", "x")] "chain_id" = none := by decide

/-- Claim C10 (amended): for every store whose present
`last_indexed_height` value (if any) is empty or parses as an integer — as
the indexer always writes — `/v1/status` returns 200, with `chain_id` null
when the `chain_id` key is absent and `last_indexed_height` null when that
key is absent. -/
theorem claim_C10_status_nulls (dbPath : String) (m : List (String × String))
    (hwf : ∀ s, metaDictGet m "last_indexed_height" = some s → s ≠ "" →
      (pyInt s).isSome = true) :
    ∃ body : StatusBody, statusRoute dbPath m = some (200, body) ∧
      body.dbPath = dbPath ∧
      (metaDictGet m "chain_id" = none → body.chainId = none) ∧
      (metaDictGet m "last_indexed_height" = none → body.lastIndexedHeight = none) := by
  cases hm : metaDictGet m "last_indexed_height" with
  | none =>
    refine ⟨⟨dbPath, metaDictGet m "chain_id", none⟩, ?_, rfl, ?_, ?_⟩
    · simp [statusRoute, hm]
    · intro hc; exact hc
    · intro _; rfl
  | some s =>
    by_cases hs : s = ""
    · subst hs
      refine ⟨⟨dbPath, metaDictGet m "chain_id", none⟩, ?_, rfl, ?_, ?_⟩
      · simp [statusRoute, hm]
      · intro hc; exact hc
      · intro hcontra; cases hcontra
    · have hsome := hwf s hm hs
      obtain ⟨n, hn⟩ := Option.isSome_iff_exists.mp hsome
      refine ⟨⟨dbPath, metaDictGet m "chain_id", some n⟩, ?_, rfl, ?_, ?_⟩
      · simp [statusRoute, hm, hs, hn]
      · intro hc; exact hc
      · intro hcontra; cases hcontra

/-- Claim C10 witness: on a freshly created store (empty meta table),
`/v1/status` returns 200 with both fields null. -/
theorem claim_C10_witness :
    statusRoute "db" ([] : List (String × String)) = some (200, ⟨"db", none, none⟩) := by
  obtain ⟨⟨bd, bc, bl⟩, h1, h2, h3, h4⟩ :=
    claim_C10_status_nulls "db" [] (fun s hs _ => by simp [metaDictGet] at hs)
  simp only at h2 h3 h4
  rw [h2, h3 rfl, h4 rfl] at h1
  exact h1
